import Mathlib

/-!
Verification of the workspace lifecycle manager
(`src/services/workspace_manager.py`).

Shallow embedding conventions:
* text is `List Char` (`Str`); the metadata record is an association list
  of keys to values (`Record`), mirroring a Python dict with insertion-order
  semantics (`dictInsert` replaces in place, appends when new);
* the fallback codec `_write_yaml` / `_parse_yaml` (the yaml-library-absent
  branch, the only codec whose source is in the repository) is embedded
  character by character;
* the manager's effectful operations are state transformers over `World`
  (branches with their tip `META.yml` content, worktree directories, files,
  head commit, `.env` template) and `Env` (an oracle of success/failure
  bits consumed by each fallible subprocess/filesystem call, and a clock
  stream consumed by `datetime.utcnow()`); errors mirror the Python
  exception taxonomy.
-/

namespace WM

abbrev Str := List Char

inductive Value where
  | vstr : Str → Value
  | vint : Int → Value
  | vnull : Value
deriving DecidableEq

abbrev Record := List (Str × Value)

inductive Err where
  | workspaceExists : Err
  | workspaceNotFound : Err
  | workspaceCreation : Err → Err
  | workspaceRemoval : Err → Err
  | calledProcess : Err
  | ioError : Err
  | fileNotFound : Err
deriving DecidableEq

inductive Res (α : Type) where
  | ok : α → Res α
  | err : Err → Res α
deriving DecidableEq

/-! ### Character classes (ASCII fragment of the Python predicates) -/

/-- ASCII whitespace stripped by Python `str.strip()`. -/
def isWs (c : Char) : Bool :=
  decide (c = ' ') || decide (c = '\t') || decide (c = '\n') || decide (c = '\r') ||
  decide (c = '\x0b') || decide (c = '\x0c') ||
  decide (c = '\x1c') || decide (c = '\x1d') || decide (c = '\x1e') || decide (c = '\x1f')

/-- ASCII line-break characters recognised by Python `str.splitlines()`. -/
def isLB (c : Char) : Bool :=
  decide (c = '\n') || decide (c = '\r') || decide (c = '\x0b') || decide (c = '\x0c') ||
  decide (c = '\x1c') || decide (c = '\x1d') || decide (c = '\x1e')

/-- Python `value.strip()` (ASCII fragment). -/
def strip (s : Str) : Str :=
  ((s.dropWhile isWs).reverse.dropWhile isWs).reverse

/-- Python strip of double quotes, `value.strip('"')`. -/
def stripQ (s : Str) : Str :=
  ((s.dropWhile (fun c => decide (c = '"'))).reverse.dropWhile (fun c => decide (c = '"'))).reverse

/-- Python `value.isdigit()` (ASCII fragment). -/
def isdigitStr (s : Str) : Bool := !s.isEmpty && s.all Char.isDigit

/-! ### Decimal digits -/

def digitChar : Nat → Char
  | 0 => '0' | 1 => '1' | 2 => '2' | 3 => '3' | 4 => '4'
  | 5 => '5' | 6 => '6' | 7 => '7' | 8 => '8' | _ => '9'

def digitVal (c : Char) : Nat := c.toNat - 48

/-- Fuel-driven decimal rendering of a natural number (Python `str(n)`). -/
def natDigitsAux : Nat → Nat → Str → Str
  | 0, _, acc => acc
  | fuel + 1, n, acc =>
    if n < 10 then digitChar n :: acc
    else natDigitsAux fuel (n / 10) (digitChar (n % 10) :: acc)

def natDigits (n : Nat) : Str := natDigitsAux (n + 1) n []

/-- Python `str(v)` for an int value. -/
def intChars (n : Int) : Str :=
  if n < 0 then '-' :: natDigits n.natAbs else natDigits n.toNat

def digitsToNatAux : Nat → Str → Nat
  | a, [] => a
  | a, c :: rest => digitsToNatAux (a * 10 + digitVal c) rest

/-- Python `int(s)` on an all-digit string. -/
def digitsToNat (s : Str) : Nat := digitsToNatAux 0 s

/-! ### Fixed strings of the source -/

def nullChars : Str := ['n', 'u', 'l', 'l']
def mainChars : Str := ['m', 'a', 'i', 'n']
def masterChars : Str := ['m', 'a', 's', 't', 'e', 'r']
def backlogChars : Str := ['b', 'a', 'c', 'k', 'l', 'o', 'g']
def featPref : Str := ['f', 'e', 'a', 't', '/']
def metaName : Str := ['M', 'E', 'T', 'A', '.', 'y', 'm', 'l']
def envName : Str := ['.', 'e', 'n', 'v']

def taskIdKey : Str := ['t', 'a', 's', 'k', '_', 'i', 'd']
def titleKey : Str := ['t', 'i', 't', 'l', 'e']
def agentKey : Str := ['a', 'g', 'e', 'n', 't']
def statusKey : Str := ['s', 't', 'a', 't', 'u', 's']
def skillKey : Str := ['s', 'k', 'i', 'l', 'l']
def xpKey : Str := ['x', 'p', '_', 'r', 'e', 'w', 'a', 'r', 'd']
def parentKey : Str := ['p', 'a', 'r', 'e', 'n', 't', '_', 'c', 'o', 'm', 'm', 'i', 't']
def createdKey : Str := ['c', 'r', 'e', 'a', 't', 'e', 'd', '_', 'a', 't']
def updatedKey : Str := ['u', 'p', 'd', 'a', 't', 'e', 'd', '_', 'a', 't']
def branchKey : Str := ['b', 'r', 'a', 'n', 'c', 'h']

/-! ### Association-list (Python dict) operations -/

/-- Assignment `d[k] = v` on a Python dict: replace in place, else append. -/
def dictInsert (k : Str) (v : Value) : Record → Record
  | [] => [(k, v)]
  | (k', v') :: r => if k' = k then (k, v) :: r else (k', v') :: dictInsert k v r

/-- Python dict update, `d.update(updates)`. -/
def dictMerge (m : Record) (updates : Record) : Record :=
  updates.foldl (fun acc kv => dictInsert kv.1 kv.2 acc) m

def rlookup (k : Str) : Record → Option Value
  | [] => none
  | (k', v) :: r => if k' = k then some v else rlookup k r

def keysOf (r : Record) : List Str := r.map (fun kv => kv.1)

/-! ### The fallback codec (`_write_yaml` / `_parse_yaml`, yaml absent) -/

/-- One line of `_write_yaml`'s fallback encoder. -/
def encodeLine : Str × Value → Str
  | (k, .vnull) => k ++ ':' :: ' ' :: nullChars
  | (k, .vstr s) => k ++ ':' :: ' ' :: '"' :: (s ++ ['"'])
  | (k, .vint n) => k ++ ':' :: ' ' :: intChars n

/-- Python `"\n".join(lines)`. -/
def joinLines : List Str → Str
  | [] => []
  | [l] => l
  | l :: ls => l ++ '\n' :: joinLines ls

/-- The `_write_yaml` fallback encoder: one `key: value` line per field. -/
def writeYamlFallback (r : Record) : Str := joinLines (r.map encodeLine)

def hasColon : Str → Bool
  | [] => false
  | c :: rest => if c = ':' then true else hasColon rest

/-- Python `line.split(":", 1)` (assuming a colon is present). -/
def splitColon : Str → Str × Str
  | [] => ([], [])
  | c :: rest =>
    if c = ':' then ([], rest)
    else ((c :: (splitColon rest).1), (splitColon rest).2)

def splitOnChar (sep : Char) : Str → List Str
  | [] => [[]]
  | c :: rest =>
    if c = sep then [] :: splitOnChar sep rest
    else
      match splitOnChar sep rest with
      | [] => [[c]]
      | h :: t => (c :: h) :: t

/-- The value conversion of `_parse_yaml`'s fallback parser. -/
def parseValue (v : Str) : Value :=
  let u := stripQ (strip v)
  if u = nullChars then .vnull
  else if isdigitStr u then .vint (Int.ofNat (digitsToNat u))
  else .vstr u

def parseLine (acc : Record) (line : Str) : Record :=
  if hasColon line then
    dictInsert (strip (splitColon line).1) (parseValue (splitColon line).2) acc
  else acc

/-- The `_parse_yaml` fallback parser. -/
def parseYamlFallback (content : Str) : Record :=
  (splitOnChar '\n' (strip content)).foldl parseLine []

/-! ### Well-formed records (domain where the reduced codec is faithful) -/

def goodKeyChar (c : Char) : Bool :=
  decide (c.toNat ≤ 127) && !isWs c && !decide (c = ':')

def goodStrChar (c : Char) : Bool :=
  decide (c.toNat ≤ 127) && !isLB c

def wfKeyB (k : Str) : Bool := !k.isEmpty && k.all goodKeyChar

def wfValB : Value → Bool
  | .vnull => true
  | .vint n => decide (0 ≤ n)
  | .vstr s =>
    s.all goodStrChar && !decide (s.head? = some '"') &&
    !decide (s.getLast? = some '"') && !decide (s = nullChars) && !isdigitStr s

def memStrB (k : Str) : List Str → Bool
  | [] => false
  | k' :: r => if k' = k then true else memStrB k r

def nodupKeysB : Record → Bool
  | [] => true
  | (k, _) :: r => !memStrB k (keysOf r) && nodupKeysB r

def wfRecB (r : Record) : Bool :=
  nodupKeysB r && r.all (fun kv => wfKeyB kv.1 && wfValB kv.2)

/-! ### World and environment -/

structure World where
  base : Str
  branches : List (Str × Option Str)
  dirs : List Str
  dirty : List Str
  files : List (Str × Str)
  headCommit : Str
  envTemplate : Option Str
deriving DecidableEq

structure Env where
  oracle : List Bool
  clock : List Str
deriving DecidableEq

/-- Consume one success/failure bit for the next fallible call. -/
def popOracle (e : Env) : Bool × Env :=
  (e.oracle.headD true, { e with oracle := e.oracle.tail })

/-- Consume one `datetime.utcnow().isoformat()` reading. -/
def popClock (e : Env) : Str × Env :=
  (e.clock.headD [], { e with clock := e.clock.tail })

/-! ### Derived names: `branch = f"feat/{task_id}"`, path sanitisation -/

def branchName (tid : Str) : Str := 'f' :: 'e' :: 'a' :: 't' :: '/' :: tid

/-- Python `branch.replace("/", "-")`. -/
def sanitize (s : Str) : Str := s.map (fun c => if c = '/' then '-' else c)

def dirPath (base tid : Str) : Str := base ++ '/' :: sanitize (branchName tid)

def metaPath (base tid : Str) : Str := dirPath base tid ++ '/' :: metaName

def envPath (base tid : Str) : Str := dirPath base tid ++ '/' :: envName

/-! ### Filesystem and ref-store helpers -/

def setFile : List (Str × Str) → Str → Str → List (Str × Str)
  | [], p, c => [(p, c)]
  | (q, d) :: fs, p, c =>
    if q = p then (p, c) :: fs else (q, d) :: setFile fs p c

def getFile : List (Str × Str) → Str → Option Str
  | [], _ => none
  | (q, d) :: fs, p => if q = p then some d else getFile fs p

def branchNames (bs : List (Str × Option Str)) : List Str := bs.map (fun b => b.1)

def tipMeta : List (Str × Option Str) → Str → Option Str
  | [], _ => none
  | (b, m) :: rest, q => if b = q then m else tipMeta rest q

def setTip : List (Str × Option Str) → Str → Option Str → List (Str × Option Str)
  | [], _, _ => []
  | (b, m) :: rest, q, n =>
    if b = q then (b, n) :: rest else (b, m) :: setTip rest q n

def removeBranch (w : World) (b : Str) : World :=
  { w with branches := w.branches.filter (fun p => decide (p.1 ≠ b)) }

def hasPref : Str → Str → Bool
  | [], _ => true
  | _ :: _, [] => false
  | a :: pa, b :: pb => if a = b then hasPref pa pb else false

/-- Removing a worktree directory removes the directory and its files. -/
def removeDir (w : World) (p : Str) : World :=
  { w with
    dirs := w.dirs.filter (fun q => decide (q ≠ p)),
    dirty := w.dirty.filter (fun q => decide (q ≠ p)),
    files := w.files.filter (fun f => !hasPref (p ++ ['/']) f.1) }

/-! ### The manager's operations -/

/-- Cleanup `_cleanup_failed_workspace`: force-remove the worktree if it exists, then
force-delete the branch; all failures of these calls are suppressed in the
source (`subprocess.run` without `check`, plus a bare `except`), so the
cleanup itself never raises; its removals are modelled as effective. -/
def cleanupFailedWorkspace (w : World) (tid : Str) : World :=
  let p := dirPath w.base tid
  let w1 := if p ∈ w.dirs then removeDir w p else w
  removeBranch w1 (branchName tid)

def skillVal : Option Str → Value
  | none => .vnull
  | some s => .vstr s

/-- The metadata dict built in `create` (step 6 of the spec). -/
def metaRecord (tid title agent : Str) (skill : Option Str) (hc t1 t2 : Str) : Record :=
  [(taskIdKey, .vstr tid), (titleKey, .vstr title), (agentKey, .vstr agent),
   (statusKey, .vstr backlogChars), (skillKey, skillVal skill), (xpKey, .vint 0),
   (parentKey, .vstr hc), (createdKey, .vstr t1), (updatedKey, .vstr t2)]

/-- Checkout: `git worktree add` materializes the branch tip into the new directory. -/
def checkoutFiles (w : World) (tid : Str) : List (Str × Str) :=
  match tipMeta w.branches (branchName tid) with
  | some m => setFile w.files (metaPath w.base tid) m
  | none => w.files

/-- Steps 6–7 of `create`: `rev-parse HEAD`, two `utcnow()` readings, write
`META.yml`, `git add`, `git commit` (commit publishes the file at the tip).
Any `CalledProcessError` triggers `_cleanup_failed_workspace` and a
`WorkspaceCreationError` wrapping it. -/
def createFinish (w : World) (e : Env) (tid title agent : Str) (skill : Option Str) :
    Res Str × World × Env :=
  let (ok5, e) := popOracle e
  if ok5 = true then
    let (t1, e) := popClock e
    let (t2, e) := popClock e
    let meta := metaRecord tid title agent skill w.headCommit t1 t2
    let w1 := { w with files := setFile w.files (metaPath w.base tid) (writeYamlFallback meta) }
    let (ok6, e) := popOracle e
    if ok6 = true then
      let (ok7, e) := popOracle e
      if ok7 = true then
        let w2 := { w1 with
          branches := setTip w1.branches (branchName tid)
            (getFile w1.files (metaPath w1.base tid)) }
        (.ok (dirPath w2.base tid), w2, e)
      else (.err (.workspaceCreation .calledProcess), cleanupFailedWorkspace w1 tid, e)
    else (.err (.workspaceCreation .calledProcess), cleanupFailedWorkspace w1 tid, e)
  else (.err (.workspaceCreation .calledProcess), cleanupFailedWorkspace w tid, e)

/-- Step 5 of `create`: copy `.env` if the template exists. A copy failure is
an `OSError`, which the source's `except subprocess.CalledProcessError`
does not catch: it escapes without cleanup. -/
def createEnvCopy (w : World) (e : Env) (tid title agent : Str) (skill : Option Str) :
    Res Str × World × Env :=
  match w.envTemplate with
  | none => createFinish w e tid title agent skill
  | some tpl =>
    let (ok4, e) := popOracle e
    if ok4 = true then
      createFinish { w with files := setFile w.files (envPath w.base tid) tpl }
        e tid title agent skill
    else (.err .ioError, w, e)

/-- The operation `WorkspaceManager.create`. -/
def create (w : World) (e : Env) (tid title agent : Str) (skill : Option Str) :
    Res Str × World × Env :=
  if dirPath w.base tid ∈ w.dirs then (.err .workspaceExists, w, e)
  else
    let (ok1, e) := popOracle e
    let mainB := if ok1 = true ∧ mainChars ∈ branchNames w.branches
                 then mainChars else masterChars
    let (ok2, e) := popOracle e
    if ok2 = true ∧ branchName tid ∉ branchNames w.branches ∧ mainB ∈ branchNames w.branches then
      let w1 := { w with branches := w.branches ++ [(branchName tid, tipMeta w.branches mainB)] }
      let (ok3, e) := popOracle e
      if ok3 = true ∧ dirPath w1.base tid ∉ w1.dirs then
        let w2 := { w1 with dirs := w1.dirs ++ [dirPath w1.base tid],
                            files := checkoutFiles w1 tid }
        createEnvCopy w2 e tid title agent skill
      else (.err (.workspaceCreation .calledProcess), cleanupFailedWorkspace w1 tid, e)
    else (.err (.workspaceCreation .calledProcess), cleanupFailedWorkspace w tid, e)

/-- The operation `WorkspaceManager.remove`: remove the worktree, then delete the branch;
any `CalledProcessError` becomes a `WorkspaceRemovalError` wrapping it. -/
def remove (w : World) (e : Env) (tid : Str) (force : Bool) :
    Res Unit × World × Env :=
  let p := dirPath w.base tid
  let (ok1, e) := popOracle e
  if ok1 = true ∧ p ∈ w.dirs ∧ (force = true ∨ p ∉ w.dirty) then
    let w1 := removeDir w p
    let (ok2, e) := popOracle e
    if ok2 = true ∧ branchName tid ∈ branchNames w1.branches then
      (.ok (), removeBranch w1 (branchName tid), e)
    else (.err (.workspaceRemoval .calledProcess), w1, e)
  else (.err (.workspaceRemoval .calledProcess), w, e)

/-- The operation `WorkspaceManager.get_meta`. -/
def get_meta (w : World) (e : Env) (tid : Str) : Res Record × World × Env :=
  match getFile w.files (metaPath w.base tid) with
  | none => (.err .workspaceNotFound, w, e)
  | some content => (.ok (parseYamlFallback content), w, e)

/-- The operation `WorkspaceManager.update_meta`: `_read_yaml` raises `FileNotFoundError`
(an `OSError`, not a `WorkspaceError`) when the file is absent — there is no
existence check in the source. -/
def update_meta (w : World) (e : Env) (tid : Str) (updates : Record) (commit : Bool) :
    Res Unit × World × Env :=
  match getFile w.files (metaPath w.base tid) with
  | none => (.err .fileNotFound, w, e)
  | some content =>
    let meta := parseYamlFallback content
    let (t, e) := popClock e
    let meta1 := dictInsert updatedKey (.vstr t) (dictMerge meta updates)
    let w1 := { w with files := setFile w.files (metaPath w.base tid) (writeYamlFallback meta1) }
    if commit = true then
      let (ok1, e) := popOracle e
      if ok1 = true ∧ dirPath w1.base tid ∈ w1.dirs then
        let (ok2, e) := popOracle e
        if ok2 = true then
          let w2 := { w1 with
            branches := setTip w1.branches (branchName tid)
              (getFile w1.files (metaPath w1.base tid)) }
          (.ok (), w2, e)
        else (.err .calledProcess, w1, e)
      else (.err .calledProcess, w1, e)
    else (.ok (), w1, e)

/-- The per-branch loop of `list_workspaces`: `git show branch:META.yml`
per `feat/` branch; a failing show (no file at the tip, or a gateway
failure) silently skips the branch. -/
def listGo : List (Str × Option Str) → Env → List Record × Env
  | [], e => ([], e)
  | (b, m) :: rest, e =>
    if hasPref featPref b then
      let (ok, e1) := popOracle e
      match m, ok with
      | some content, true =>
        let (l, e2) := listGo rest e1
        (dictInsert branchKey (.vstr b) (parseYamlFallback content) :: l, e2)
      | _, _ => listGo rest e1
    else listGo rest e

/-- The operation `WorkspaceManager.list_workspaces`: a failing branch enumeration is
swallowed (`except CalledProcessError: pass`) and yields `[]`. -/
def list_workspaces (w : World) (e : Env) : Res (List Record) × World × Env :=
  let (ok0, e1) := popOracle e
  if ok0 = true then
    let (l, e2) := listGo w.branches e1
    (.ok l, w, e2)
  else (.ok [], w, e1)

/-- The list of records described by the spec for `list_workspaces`: exactly
one record per branch with the fixed prefix whose tip holds the metadata
file, decoded from the tip and carrying its source branch name; branches
lacking the file are omitted. -/
def listSpec : List (Str × Option Str) → List Record
  | [] => []
  | (b, m) :: rest =>
    if hasPref featPref b then
      match m with
      | some content => dictInsert branchKey (.vstr b) (parseYamlFallback content) :: listSpec rest
      | none => listSpec rest
    else listSpec rest

/-- All oracle bits report success (no injected gateway failures). -/
def allTrue (l : List Bool) : Prop := ∀ b ∈ l, b = true

/-! ## Lemmas: decimal digits -/

def digitList : Str := ['0', '1', '2', '3', '4', '5', '6', '7', '8', '9']

theorem digitChar_mem (m : Nat) : digitChar m ∈ digitList := by
  match m with
  | 0 | 1 | 2 | 3 | 4 | 5 | 6 | 7 | 8 => decide
  | n + 9 => simp [digitChar, digitList]

theorem digitVal_digitChar {m : Nat} (h : m < 10) : digitVal (digitChar m) = m := by
  interval_cases m <;> decide

theorem natDigitsAux_succ (fuel n : Nat) (acc : Str) :
    natDigitsAux (fuel + 1) n acc =
      if n < 10 then digitChar n :: acc
      else natDigitsAux fuel (n / 10) (digitChar (n % 10) :: acc) := rfl

theorem natDigitsAux_acc (fuel : Nat) :
    ∀ n acc, natDigitsAux fuel n acc = natDigitsAux fuel n [] ++ acc := by
  induction fuel with
  | zero => intro n acc; simp [natDigitsAux]
  | succ fuel ih =>
    intro n acc
    by_cases h : n < 10
    · simp [natDigitsAux, h]
    · simp only [natDigitsAux, if_neg h]
      rw [ih (n / 10) (digitChar (n % 10) :: acc), ih (n / 10) [digitChar (n % 10)]]
      simp

theorem digitsToNatAux_append (a : Nat) (xs ys : Str) :
    digitsToNatAux a (xs ++ ys) = digitsToNatAux (digitsToNatAux a xs) ys := by
  induction xs generalizing a with
  | nil => rfl
  | cons c xs ih =>
    show digitsToNatAux (a * 10 + digitVal c) (xs ++ ys) = _
    rw [ih]
    rfl

theorem digitsToNat_natDigitsAux (fuel : Nat) :
    ∀ n, n < 10 ^ fuel → digitsToNat (natDigitsAux fuel n []) = n := by
  induction fuel with
  | zero =>
    intro n hn
    have hn0 : n = 0 := by simpa using hn
    subst hn0; rfl
  | succ fuel ih =>
    intro n hn
    by_cases h : n < 10
    · rw [natDigitsAux_succ, if_pos h]
      show digitsToNatAux (0 * 10 + digitVal (digitChar n)) [] = n
      rw [digitVal_digitChar h]
      show 0 * 10 + n = n
      omega
    · rw [natDigitsAux_succ, if_neg h]
      rw [natDigitsAux_acc]
      have hdiv : n / 10 < 10 ^ fuel := by
        rw [Nat.div_lt_iff_lt_mul (by norm_num : 0 < 10)]
        calc n < 10 ^ (fuel + 1) := hn
        _ = 10 ^ fuel * 10 := by rw [Nat.pow_succ]
      unfold digitsToNat
      rw [digitsToNatAux_append]
      have hrw := ih (n / 10) hdiv
      unfold digitsToNat at hrw
      rw [hrw]
      show (n / 10) * 10 + digitVal (digitChar (n % 10)) = n
      rw [digitVal_digitChar (Nat.mod_lt n (by norm_num))]
      omega

theorem digitsToNat_natDigits (n : Nat) : digitsToNat (natDigits n) = n := by
  unfold natDigits
  refine digitsToNat_natDigitsAux (n + 1) n ?_
  calc n < 10 ^ n := Nat.lt_pow_self (by norm_num) n
  _ ≤ 10 ^ (n + 1) := Nat.pow_le_pow_right (by norm_num) (Nat.le_succ n)

theorem natDigitsAux_mem (fuel : Nat) :
    ∀ n acc c, c ∈ natDigitsAux fuel n acc → c ∈ digitList ∨ c ∈ acc := by
  induction fuel with
  | zero => intro n acc c hc; exact Or.inr hc
  | succ fuel ih =>
    intro n acc c hc
    by_cases h : n < 10
    · simp only [natDigitsAux, if_pos h, List.mem_cons] at hc
      rcases hc with hc | hc
      · exact Or.inl (hc ▸ digitChar_mem n)
      · exact Or.inr hc
    · simp only [natDigitsAux, if_neg h] at hc
      rcases ih (n / 10) (digitChar (n % 10) :: acc) c hc with hd | hd
      · exact Or.inl hd
      · rcases List.mem_cons.1 hd with he | he
        · exact Or.inl (he ▸ digitChar_mem (n % 10))
        · exact Or.inr he

theorem natDigits_mem {n : Nat} {c : Char} (hc : c ∈ natDigits n) : c ∈ digitList := by
  rcases natDigitsAux_mem (n + 1) n [] c hc with h | h
  · exact h
  · simp at h

theorem natDigitsAux_ne_nil (fuel : Nat) :
    ∀ n acc, acc ≠ [] → natDigitsAux fuel n acc ≠ [] := by
  induction fuel with
  | zero => intro n acc h; simpa [natDigitsAux]
  | succ fuel ih =>
    intro n acc h
    by_cases hn : n < 10
    · simp [natDigitsAux, hn]
    · simp only [natDigitsAux, if_neg hn]
      exact ih (n / 10) _ (by simp)

theorem natDigits_ne_nil (n : Nat) : natDigits n ≠ [] := by
  unfold natDigits natDigitsAux
  by_cases hn : n < 10
  · simp [hn]
  · simp only [if_neg hn]
    exact natDigitsAux_ne_nil n (n / 10) _ (by simp)

theorem mem_digitList_isDigit {c : Char} (h : c ∈ digitList) : c.isDigit = true := by
  simp only [digitList, List.mem_cons, List.not_mem_nil, or_false] at h
  rcases h with rfl | rfl | rfl | rfl | rfl | rfl | rfl | rfl | rfl | rfl <;> decide

theorem isdigitStr_natDigits (n : Nat) : isdigitStr (natDigits n) = true := by
  unfold isdigitStr
  rw [Bool.and_eq_true]
  constructor
  · simp [List.isEmpty_iff, natDigits_ne_nil n]
  · rw [List.all_eq_true]
    intro c hc
    exact mem_digitList_isDigit (natDigits_mem hc)

theorem mem_digitList_not_ws {c : Char} (h : c ∈ digitList) : isWs c = false := by
  simp only [digitList, List.mem_cons, List.not_mem_nil, or_false] at h
  rcases h with rfl | rfl | rfl | rfl | rfl | rfl | rfl | rfl | rfl | rfl <;> decide

theorem mem_digitList_not_quote {c : Char} (h : c ∈ digitList) : (c = '"') = False := by
  simp only [digitList, List.mem_cons, List.not_mem_nil, or_false] at h
  rcases h with rfl | rfl | rfl | rfl | rfl | rfl | rfl | rfl | rfl | rfl <;> decide

/-! ## Lemmas: trimming -/

theorem dropWhile_eq_self_of_head {p : Char → Bool} {l : Str}
    (h : ∀ c, l.head? = some c → p c = false) : l.dropWhile p = l := by
  cases l with
  | nil => rfl
  | cons c l => simp [List.dropWhile, h c rfl]

theorem trim_eq_self {p : Char → Bool} {l : Str}
    (h1 : ∀ c, l.head? = some c → p c = false)
    (h2 : ∀ c, l.getLast? = some c → p c = false) :
    ((l.dropWhile p).reverse.dropWhile p).reverse = l := by
  rw [dropWhile_eq_self_of_head h1]
  rw [dropWhile_eq_self_of_head (fun c hc => h2 c (by rwa [List.head?_reverse] at hc))]
  exact List.reverse_reverse l

theorem strip_eq_self {l : Str}
    (h1 : ∀ c, l.head? = some c → isWs c = false)
    (h2 : ∀ c, l.getLast? = some c → isWs c = false) : strip l = l :=
  trim_eq_self h1 h2

theorem stripQ_eq_self {l : Str}
    (h1 : ∀ c, l.head? = some c → (decide (c = '"') : Bool) = false)
    (h2 : ∀ c, l.getLast? = some c → (decide (c = '"') : Bool) = false) : stripQ l = l :=
  trim_eq_self h1 h2

theorem strip_cons_space (l : Str) : strip (' ' :: l) = strip l := by
  unfold strip
  rw [List.dropWhile_cons]
  have hws : isWs ' ' = true := by decide
  rw [hws]
  simp

theorem mem_of_head?_eq {l : Str} {c : Char} (h : l.head? = some c) : c ∈ l := by
  cases l with
  | nil => simp at h
  | cons a l =>
    simp only [List.head?_cons, Option.some.injEq] at h
    exact h ▸ List.mem_cons_self a l

theorem mem_of_getLast?_eq {l : Str} {c : Char} (h : l.getLast? = some c) : c ∈ l := by
  rw [← List.head?_reverse] at h
  exact List.mem_reverse.1 (mem_of_head?_eq h)

/-! ## Lemmas: splitting -/

theorem hasColon_append (k rest : Str) : hasColon (k ++ ':' :: rest) = true := by
  induction k with
  | nil => simp [hasColon]
  | cons c k ih => by_cases hc : c = ':' <;> simp [hasColon, hc, ih]

theorem splitColon_append {k : Str} (rest : Str) (h : ':' ∉ k) :
    splitColon (k ++ ':' :: rest) = (k, rest) := by
  induction k with
  | nil => simp [splitColon]
  | cons c k ih =>
    have hc : ¬ c = ':' := fun he => h (by rw [he]; exact List.mem_cons_self _ _)
    have ih2 := ih (fun hm => h (List.mem_cons_of_mem c hm))
    simp [splitColon, hc, ih2]

theorem splitOnChar_no_sep {sep : Char} {l : Str} (h : sep ∉ l) :
    splitOnChar sep l = [l] := by
  induction l with
  | nil => rfl
  | cons c l ih =>
    have hc : ¬ c = sep := fun he => h (by rw [he]; exact List.mem_cons_self _ _)
    have ih2 := ih (fun hm => h (List.mem_cons_of_mem c hm))
    simp [splitOnChar, hc, ih2]

theorem splitOnChar_append {sep : Char} {l : Str} (s : Str) (h : sep ∉ l) :
    splitOnChar sep (l ++ sep :: s) = l :: splitOnChar sep s := by
  induction l with
  | nil => simp [splitOnChar]
  | cons c l ih =>
    have hc : ¬ c = sep := fun he => h (by rw [he]; exact List.mem_cons_self _ _)
    have ih2 := ih (fun hm => h (List.mem_cons_of_mem c hm))
    simp [splitOnChar, hc, ih2]

theorem joinLines_cons_cons (l l2 : Str) (ls : List Str) :
    joinLines (l :: l2 :: ls) = l ++ '\n' :: joinLines (l2 :: ls) := rfl

theorem joinLines_ne_nil {l : Str} (ls : List Str) (h : l ≠ []) :
    joinLines (l :: ls) ≠ [] := by
  cases ls with
  | nil => exact h
  | cons l2 ls =>
    rw [joinLines_cons_cons]
    cases l with
    | nil => simp
    | cons c l => simp

theorem splitOnChar_joinLines :
    ∀ ls : List Str, ls ≠ [] → (∀ l ∈ ls, '\n' ∉ l) →
      splitOnChar '\n' (joinLines ls) = ls
  | [], h, _ => absurd rfl h
  | [l], _, h2 => by
    simp only [joinLines]
    exact splitOnChar_no_sep (h2 l (by simp))
  | l :: l2 :: ls, _, h2 => by
    rw [joinLines_cons_cons, splitOnChar_append _ (h2 l (by simp))]
    rw [splitOnChar_joinLines (l2 :: ls) (by simp)
      (fun x hx => h2 x (List.mem_cons_of_mem l hx))]

theorem head?_joinLines_cons (l : Str) (ls : List Str) (h : l ≠ []) :
    (joinLines (l :: ls)).head? = l.head? := by
  cases ls with
  | nil => rfl
  | cons l2 ls =>
    rw [joinLines_cons_cons]
    cases l with
    | nil => exact absurd rfl h
    | cons c l => rfl

theorem getLast?_joinLines :
    ∀ ls : List Str, (∀ l ∈ ls, l ≠ []) → ∀ c, (joinLines ls).getLast? = some c →
      ∃ l ∈ ls, l.getLast? = some c
  | [], _, c, hc => by simp [joinLines] at hc
  | [l], _, c, hc => ⟨l, by simp, hc⟩
  | l :: l2 :: ls, h, c, hc => by
    rw [joinLines_cons_cons] at hc
    have hne : joinLines (l2 :: ls) ≠ [] := joinLines_ne_nil ls (h l2 (by simp))
    rw [List.getLast?_append] at hc
    have hc2 : ('\n' :: joinLines (l2 :: ls)).getLast? = some c := by
      cases he : ('\n' :: joinLines (l2 :: ls)).getLast? with
      | none => simp [List.getLast?_eq_none_iff] at he
      | some d =>
        rw [he] at hc
        simp only [Option.or_some] at hc
        exact hc
    have hc3 : (joinLines (l2 :: ls)).getLast? = some c := by
      cases hj : joinLines (l2 :: ls) with
      | nil => exact absurd hj hne
      | cons a as =>
        rw [hj] at hc2
        rwa [List.getLast?_cons_cons] at hc2
    obtain ⟨x, hx, hxc⟩ := getLast?_joinLines (l2 :: ls)
      (fun y hy => h y (List.mem_cons_of_mem l hy)) c hc3
    exact ⟨x, List.mem_cons_of_mem l hx, hxc⟩

/-! ## Lemmas: well-formedness decomposition -/

theorem wfKeyB_ne_nil {k : Str} (h : wfKeyB k = true) : k ≠ [] := by
  unfold wfKeyB at h
  rw [Bool.and_eq_true] at h
  simpa [List.isEmpty_iff] using h.1

theorem wfKeyB_mem {k : Str} {c : Char} (h : wfKeyB k = true) (hc : c ∈ k) :
    isWs c = false ∧ ¬ c = ':' := by
  unfold wfKeyB at h
  rw [Bool.and_eq_true, List.all_eq_true] at h
  have hg := h.2 c hc
  unfold goodKeyChar at hg
  rw [Bool.and_eq_true, Bool.and_eq_true] at hg
  obtain ⟨⟨_, h2⟩, h3⟩ := hg
  constructor
  · rwa [Bool.not_eq_true'] at h2
  · rw [Bool.not_eq_true'] at h3
    simpa using h3

theorem wfKeyB_no_colon {k : Str} (h : wfKeyB k = true) : ':' ∉ k :=
  fun hm => (wfKeyB_mem h hm).2 rfl

theorem wfKeyB_no_newline {k : Str} (h : wfKeyB k = true) : '\n' ∉ k := by
  intro hm
  have := (wfKeyB_mem h hm).1
  simp [isWs] at this

theorem wfValB_vstr {s : Str} (h : wfValB (.vstr s) = true) :
    (∀ c ∈ s, goodStrChar c = true) ∧ s.head? ≠ some '"' ∧ s.getLast? ≠ some '"' ∧
      s ≠ nullChars ∧ isdigitStr s = false := by
  unfold wfValB at h
  rw [Bool.and_eq_true, Bool.and_eq_true, Bool.and_eq_true, Bool.and_eq_true] at h
  obtain ⟨⟨⟨⟨h1, h2⟩, h3⟩, h4⟩, h5⟩ := h
  rw [List.all_eq_true] at h1
  rw [Bool.not_eq_true'] at h2 h3 h4 h5
  refine ⟨h1, ?_, ?_, ?_, h5⟩
  · simpa using h2
  · simpa using h3
  · simpa using h4

theorem goodStrChar_no_newline {s : Str} (h : ∀ c ∈ s, goodStrChar c = true) : '\n' ∉ s := by
  intro hm
  have := h '\n' hm
  simp [goodStrChar, isLB] at this

/-! ## Lemmas: parseValue on encoded values -/

theorem parseValue_null : parseValue (' ' :: nullChars) = .vnull := by decide

theorem strip_all_not_ws {l : Str} (h : ∀ c ∈ l, isWs c = false) : strip l = l :=
  strip_eq_self (fun c hc => h c (mem_of_head?_eq hc)) (fun c hc => h c (mem_of_getLast?_eq hc))

theorem parseValue_int {n : Int} (h : 0 ≤ n) : parseValue (' ' :: intChars n) = .vint n := by
  have hneg : ¬ n < 0 := by omega
  have hic : intChars n = natDigits n.toNat := by simp [intChars, hneg]
  rw [hic]
  have hdig : ∀ c ∈ natDigits n.toNat, c ∈ digitList := fun c hc => natDigits_mem hc
  unfold parseValue
  rw [strip_cons_space, strip_all_not_ws (fun c hc => mem_digitList_not_ws (hdig c hc))]
  rw [stripQ_eq_self
    (fun c hc => by
      have := mem_digitList_not_quote (hdig c (mem_of_head?_eq hc))
      simp [this])
    (fun c hc => by
      have := mem_digitList_not_quote (hdig c (mem_of_getLast?_eq hc))
      simp [this])]
  have hnn : ¬ natDigits n.toNat = nullChars := by
    intro he
    cases hd : natDigits n.toNat with
    | nil => exact natDigits_ne_nil n.toNat hd
    | cons a as =>
      rw [hd] at he
      have ha : a ∈ digitList := hdig a (by rw [hd]; exact List.mem_cons_self _ _)
      have : a = 'n' := by
        have := congrArg List.head? he
        simpa [nullChars] using this
      rw [this] at ha
      simp [digitList] at ha
  rw [if_neg hnn, if_pos (isdigitStr_natDigits n.toNat)]
  rw [digitsToNat_natDigits]
  congr 1
  exact Int.toNat_of_nonneg h

theorem stripQ_quoted {s : Str} (h1 : s.head? ≠ some '"') (h2 : s.getLast? ≠ some '"') :
    stripQ ('"' :: (s ++ ['"'])) = s := by
  unfold stripQ
  rw [List.dropWhile_cons]
  norm_num
  cases s with
  | nil => decide
  | cons a s' =>
    have ha : ¬ a = '"' := by simpa using h1
    have hhead : ∀ c, (s'.reverse ++ [a]).head? = some c →
        (decide (c = '"') : Bool) = false := by
      intro c hc
      cases hs : s'.reverse with
      | nil =>
        rw [hs] at hc
        simp only [List.nil_append, List.head?_cons, Option.some.injEq] at hc
        rw [← hc]
        simpa using ha
      | cons b bs =>
        rw [hs] at hc
        simp only [List.cons_append, List.head?_cons, Option.some.injEq] at hc
        have hs' : s' ≠ [] := by
          intro he
          rw [he] at hs
          simp at hs
        have hb : s'.getLast? = some b := by
          rw [← List.head?_reverse, hs]
          rfl
        have hlast : (a :: s').getLast? = some b := by
          cases s' with
          | nil => exact absurd rfl hs'
          | cons c2 s'' => rw [List.getLast?_cons_cons]; exact hb
        have hbq : ¬ b = '"' := fun he => h2 (he ▸ hlast)
        rw [← hc]
        simpa using hbq
    rw [List.cons_append, List.dropWhile_cons]
    simp only [decide_eq_true_eq, ha, if_false]
    rw [show (a :: (s' ++ ['"'])) = (a :: s') ++ ['"'] from rfl]
    rw [List.reverse_append]
    simp only [List.reverse_cons, List.reverse_nil, List.nil_append, List.singleton_append]
    show (List.dropWhile (fun c => decide (c = '"')) (s'.reverse ++ [a])).reverse = a :: s'
    rw [dropWhile_eq_self_of_head hhead]
    simp

theorem parseValue_str {s : Str} (hq1 : s.head? ≠ some '"') (hq2 : s.getLast? ≠ some '"')
    (hnn : s ≠ nullChars) (hnd : isdigitStr s = false) :
    parseValue (' ' :: '"' :: (s ++ ['"'])) = .vstr s := by
  unfold parseValue
  rw [strip_cons_space]
  have hst : strip ('"' :: (s ++ ['"'])) = '"' :: (s ++ ['"']) := by
    refine strip_eq_self (fun c hc => ?_) (fun c hc => ?_)
    · have hcc : ('"' : Char) = c := by simpa using hc
      rw [← hcc]; decide
    · have : ('"' :: (s ++ ['"'])).getLast? = some '"' := by
        rw [show ('"' :: (s ++ ['"'])) = ('"' :: s) ++ ['"'] from by simp]
        exact List.getLast?_concat _
      rw [this] at hc
      have hcq : c = '"' := (Option.some.inj hc).symm
      rw [hcq]; decide
  rw [hst, stripQ_quoted hq1 hq2, if_neg hnn, hnd]
  simp

/-! ## Lemmas: parseLine on encoded lines, and the fold -/

theorem encodeLine_ne_nil (k : Str) (v : Value) : encodeLine (k, v) ≠ [] := by
  cases v <;> simp [encodeLine]

theorem head?_encodeLine_not_ws {k : Str} {v : Value} (hk : wfKeyB k = true) :
    ∀ c, (encodeLine (k, v)).head? = some c → isWs c = false := by
  intro c hc
  cases hk2 : k with
  | nil => exact absurd hk2 (wfKeyB_ne_nil hk)
  | cons a k' =>
    subst hk2
    have hmem : a ∈ a :: k' := List.mem_cons_self a k'
    have ha : isWs a = false := (wfKeyB_mem hk hmem).1
    cases v <;>
      (simp only [encodeLine, List.cons_append, List.head?_cons, Option.some.injEq] at hc;
       rw [← hc]; exact ha)

theorem wfValB_vint_nonneg {n : Int} (h : wfValB (.vint n) = true) : 0 ≤ n := by
  unfold wfValB at h
  simpa using h

theorem getLast?_encodeLine_not_ws {k : Str} {v : Value} (hv : wfValB v = true) :
    ∀ c, (encodeLine (k, v)).getLast? = some c → isWs c = false := by
  intro c hc
  cases v with
  | vnull =>
    rw [show encodeLine (k, .vnull) = k ++ [':', ' ', 'n', 'u', 'l', 'l'] from rfl] at hc
    rw [List.getLast?_append] at hc
    rw [show ([':', ' ', 'n', 'u', 'l', 'l'] : Str).getLast? = some 'l' from rfl] at hc
    rw [Option.or_some] at hc
    have : c = 'l' := (Option.some.inj hc).symm
    rw [this]; decide
  | vint n =>
    have hn : 0 ≤ n := wfValB_vint_nonneg hv
    have hneg : ¬ n < 0 := by omega
    rw [show encodeLine (k, .vint n) = k ++ ([':', ' '] ++ intChars n) from rfl] at hc
    rw [List.getLast?_append, List.getLast?_append] at hc
    cases hg : (intChars n).getLast? with
    | none =>
      rw [List.getLast?_eq_none_iff] at hg
      have : intChars n = natDigits n.toNat := by simp [intChars, hneg]
      rw [this] at hg
      exact absurd hg (natDigits_ne_nil n.toNat)
    | some d =>
      rw [hg, Option.or_some, Option.or_some] at hc
      have hcd : c = d := (Option.some.inj hc).symm
      have hdm : d ∈ intChars n := mem_of_getLast?_eq hg
      have : intChars n = natDigits n.toNat := by simp [intChars, hneg]
      rw [this] at hdm
      rw [hcd]
      exact mem_digitList_not_ws (natDigits_mem hdm)
  | vstr s =>
    rw [show encodeLine (k, .vstr s) = k ++ ([':', ' ', '"'] ++ (s ++ ['"'])) from rfl] at hc
    rw [List.getLast?_append, List.getLast?_append] at hc
    rw [List.getLast?_concat] at hc
    rw [Option.or_some, Option.or_some] at hc
    have : c = '"' := (Option.some.inj hc).symm
    rw [this]; decide

theorem newline_not_mem_encodeLine {k : Str} {v : Value}
    (hk : wfKeyB k = true) (hv : wfValB v = true) : '\n' ∉ encodeLine (k, v) := by
  have hknl : '\n' ∉ k := wfKeyB_no_newline hk
  cases v with
  | vnull =>
    rw [show encodeLine (k, .vnull) = k ++ [':', ' ', 'n', 'u', 'l', 'l'] from rfl]
    intro hm
    rcases List.mem_append.1 hm with hm | hm
    · exact hknl hm
    · simp at hm
  | vint n =>
    have hneg : ¬ n < 0 := by have := wfValB_vint_nonneg hv; omega
    rw [show encodeLine (k, .vint n) = k ++ ([':', ' '] ++ intChars n) from rfl]
    intro hm
    rcases List.mem_append.1 hm with hm | hm
    · exact hknl hm
    rcases List.mem_append.1 hm with hm | hm
    · simp at hm
    · have : intChars n = natDigits n.toNat := by simp [intChars, hneg]
      rw [this] at hm
      have := mem_digitList_not_ws (natDigits_mem hm)
      simp [isWs] at this
  | vstr s =>
    have hs := (wfValB_vstr hv).1
    rw [show encodeLine (k, .vstr s) = k ++ ([':', ' ', '"'] ++ (s ++ ['"'])) from rfl]
    intro hm
    rcases List.mem_append.1 hm with hm | hm
    · exact hknl hm
    rcases List.mem_append.1 hm with hm | hm
    · simp at hm
    rcases List.mem_append.1 hm with hm | hm
    · exact goodStrChar_no_newline hs hm
    · simp at hm

theorem parseLine_encodeLine {k : Str} {v : Value} (acc : Record)
    (hk : wfKeyB k = true) (hv : wfValB v = true) :
    parseLine acc (encodeLine (k, v)) = dictInsert k v acc := by
  have hnc : ':' ∉ k := wfKeyB_no_colon hk
  have hks : strip k = k := strip_all_not_ws (fun c hc => (wfKeyB_mem hk hc).1)
  cases v with
  | vnull =>
    show parseLine acc (k ++ ':' :: (' ' :: nullChars)) = _
    unfold parseLine
    rw [hasColon_append, splitColon_append _ hnc]
    simp only [hks, parseValue_null, if_true]
  | vint n =>
    have hn : 0 ≤ n := wfValB_vint_nonneg hv
    show parseLine acc (k ++ ':' :: (' ' :: intChars n)) = _
    unfold parseLine
    rw [hasColon_append, splitColon_append _ hnc]
    simp only [hks, parseValue_int hn, if_true]
  | vstr s =>
    obtain ⟨_, hq1, hq2, hnn, hnd⟩ := wfValB_vstr hv
    show parseLine acc (k ++ ':' :: (' ' :: '"' :: (s ++ ['"']))) = _
    unfold parseLine
    rw [hasColon_append, splitColon_append _ hnc]
    simp only [hks, parseValue_str hq1 hq2 hnn hnd, if_true]

theorem memStrB_iff {k : Str} : ∀ l : List Str, memStrB k l = true ↔ k ∈ l
  | [] => by simp [memStrB]
  | k' :: l => by
    by_cases h : k' = k
    · simp [memStrB, h]
    · have hne : ¬ k = k' := fun he => h he.symm
      simp [memStrB, h, memStrB_iff l, List.mem_cons, hne]

theorem dictInsert_append {k : Str} {v : Value} {acc : Record} (h : k ∉ keysOf acc) :
    dictInsert k v acc = acc ++ [(k, v)] := by
  induction acc with
  | nil => rfl
  | cons kv acc ih =>
    obtain ⟨k', v'⟩ := kv
    simp only [keysOf, List.map_cons, List.mem_cons] at h
    push_neg at h
    have h1 : ¬ k' = k := fun he => h.1 he.symm
    simp only [dictInsert, if_neg h1]
    rw [ih h.2]
    simp

theorem nodupKeysB_cons {k : Str} {v : Value} {r : Record}
    (h : nodupKeysB ((k, v) :: r) = true) :
    k ∉ keysOf r ∧ nodupKeysB r = true := by
  unfold nodupKeysB at h
  rw [Bool.and_eq_true, Bool.not_eq_true'] at h
  exact ⟨fun hm => by rw [(memStrB_iff (keysOf r)).2 hm] at h; exact absurd h.1 (by decide),
    h.2⟩

theorem foldl_parseLine_encode :
    ∀ (r acc : Record), nodupKeysB r = true →
      (∀ kv ∈ r, wfKeyB kv.1 = true ∧ wfValB kv.2 = true) →
      (∀ k ∈ keysOf r, k ∉ keysOf acc) →
      (r.map encodeLine).foldl parseLine acc = acc ++ r
  | [], acc, _, _, _ => by simp
  | (k, v) :: r, acc, hnd, hwf, hdisj => by
    obtain ⟨hk1, hnd'⟩ := nodupKeysB_cons hnd
    simp only [List.map_cons, List.foldl_cons]
    have hself := List.mem_cons_self (k, v) r
    rw [parseLine_encodeLine acc (hwf (k, v) hself).1 (hwf (k, v) hself).2]
    have hkmem : k ∈ keysOf ((k, v) :: r) := by
      unfold keysOf
      rw [List.map_cons]
      exact List.mem_cons_self _ _
    rw [dictInsert_append (hdisj k hkmem)]
    rw [foldl_parseLine_encode r (acc ++ [(k, v)]) hnd'
      (fun kv hm => hwf kv (List.mem_cons_of_mem _ hm))
      (fun k' hk' => by
        intro hx
        have hmem : k' ∈ keysOf ((k, v) :: r) := by
          unfold keysOf
          rw [List.map_cons]
          exact List.mem_cons_of_mem _ hk'
        have hda := hdisj k' hmem
        unfold keysOf at hx
        rw [List.map_append] at hx
        rcases List.mem_append.1 hx with hx2 | hx2
        · exact hda hx2
        · rw [List.map_cons, List.map_nil] at hx2
          rw [List.mem_singleton] at hx2
          rw [hx2] at hk'
          exact hk1 hk')]
    simp

/-! ## The round-trip theorem for the reduced codec -/

theorem wfRecB_parts {r : Record} (h : wfRecB r = true) :
    nodupKeysB r = true ∧ ∀ kv ∈ r, wfKeyB kv.1 = true ∧ wfValB kv.2 = true := by
  unfold wfRecB at h
  rw [Bool.and_eq_true, List.all_eq_true] at h
  refine ⟨h.1, fun kv hm => ?_⟩
  have := h.2 kv hm
  rwa [Bool.and_eq_true] at this

theorem roundtrip_wf (r : Record) (h : wfRecB r = true) :
    parseYamlFallback (writeYamlFallback r) = r := by
  obtain ⟨hnd, hwf⟩ := wfRecB_parts h
  cases hr : r with
  | nil => decide
  | cons kv r' =>
    subst hr
    unfold writeYamlFallback parseYamlFallback
    have hlines_ne : ∀ l ∈ (kv :: r').map encodeLine, l ≠ [] := by
      intro l hl
      obtain ⟨⟨k, v⟩, _, rfl⟩ := List.mem_map.1 hl
      exact encodeLine_ne_nil k v
    have hnl : ∀ l ∈ (kv :: r').map encodeLine, '\n' ∉ l := by
      intro l hl
      obtain ⟨⟨k, v⟩, hp, rfl⟩ := List.mem_map.1 hl
      exact newline_not_mem_encodeLine (hwf (k, v) hp).1 (hwf (k, v) hp).2
    have hstrip : strip (joinLines ((kv :: r').map encodeLine)) =
        joinLines ((kv :: r').map encodeLine) := by
      refine strip_eq_self (fun c hc => ?_) (fun c hc => ?_)
      · rw [List.map_cons] at hc
        rw [head?_joinLines_cons _ _ (encodeLine_ne_nil kv.1 kv.2)] at hc
        exact head?_encodeLine_not_ws (hwf kv (List.mem_cons_self kv r')).1 c
          (by rw [show (kv.1, kv.2) = kv from rfl]; exact hc)
      · obtain ⟨l, hl, hlc⟩ := getLast?_joinLines _ hlines_ne c hc
        obtain ⟨⟨k, v⟩, hp, rfl⟩ := List.mem_map.1 hl
        exact getLast?_encodeLine_not_ws (hwf (k, v) hp).2 c hlc
    rw [hstrip, splitOnChar_joinLines _ (by simp) hnl]
    have := foldl_parseLine_encode (kv :: r') [] hnd hwf
      (fun k _ hx => List.not_mem_nil k hx)
    rw [this]
    simp

/-! ## Lemmas: lookups through dict insert and merge -/

theorem rlookup_dictInsert_self (k : Str) (v : Value) :
    ∀ r : Record, rlookup k (dictInsert k v r) = some v
  | [] => by simp [dictInsert, rlookup]
  | (k', v') :: r => by
    by_cases h : k' = k
    · simp [dictInsert, h, rlookup]
    · simp [dictInsert, h, rlookup, rlookup_dictInsert_self k v r]

theorem rlookup_dictInsert_ne {k' k : Str} (v : Value) (h : ¬ k' = k) :
    ∀ r : Record, rlookup k' (dictInsert k v r) = rlookup k' r
  | [] => by
    have h2 : ¬ k = k' := fun he => h he.symm
    simp [dictInsert, rlookup, h2]
  | (k0, v0) :: r => by
    have h2 : ¬ k = k' := fun he => h he.symm
    by_cases h0 : k0 = k
    · subst h0
      simp only [dictInsert, if_pos rfl]
      simp [rlookup, h2]
    · simp only [dictInsert, if_neg h0]
      by_cases h1 : k0 = k'
      · simp [rlookup, h1]
      · simp [rlookup, h1, rlookup_dictInsert_ne v h r]

theorem mem_dictInsert {kv : Str × Value} {k : Str} {v : Value} :
    ∀ {r : Record}, kv ∈ dictInsert k v r → kv = (k, v) ∨ kv ∈ r := by
  intro r
  induction r with
  | nil => simp [dictInsert]
  | cons kv0 r ih =>
    obtain ⟨k0, v0⟩ := kv0
    by_cases h : k0 = k
    · simp only [dictInsert, if_pos h, List.mem_cons]
      rintro (rfl | hm)
      · exact Or.inl rfl
      · exact Or.inr (Or.inr hm)
    · simp only [dictInsert, if_neg h, List.mem_cons]
      rintro (rfl | hm)
      · exact Or.inr (Or.inl rfl)
      · rcases ih hm with hx | hx
        · exact Or.inl hx
        · exact Or.inr (Or.inr hx)

theorem mem_keysOf_dictInsert {k' k : Str} {v : Value} {r : Record}
    (h : k' ∈ keysOf (dictInsert k v r)) : k' = k ∨ k' ∈ keysOf r := by
  unfold keysOf at h
  obtain ⟨kv, hm, rfl⟩ := List.mem_map.1 h
  rcases mem_dictInsert hm with hx | hx
  · exact Or.inl (by rw [hx])
  · exact Or.inr (List.mem_map_of_mem _ hx)

theorem nodupKeysB_cons_intro {k : Str} {v : Value} {r : Record}
    (h1 : k ∉ keysOf r) (h2 : nodupKeysB r = true) :
    nodupKeysB ((k, v) :: r) = true := by
  unfold nodupKeysB
  rw [Bool.and_eq_true, Bool.not_eq_true']
  refine ⟨?_, h2⟩
  rw [Bool.eq_false_iff]
  intro hm
  exact h1 ((memStrB_iff (keysOf r)).1 hm)

theorem nodupKeysB_dictInsert {k : Str} {v : Value} :
    ∀ {r : Record}, nodupKeysB r = true → nodupKeysB (dictInsert k v r) = true := by
  intro r
  induction r with
  | nil => intro _; simp [dictInsert, nodupKeysB, memStrB, keysOf]
  | cons kv0 r ih =>
    obtain ⟨k0, v0⟩ := kv0
    intro h
    obtain ⟨hk0, hr⟩ := nodupKeysB_cons h
    by_cases h0 : k0 = k
    · subst h0
      simp only [dictInsert, if_pos rfl]
      exact nodupKeysB_cons_intro hk0 hr
    · simp only [dictInsert, if_neg h0]
      refine nodupKeysB_cons_intro ?_ (ih hr)
      intro hm
      rcases mem_keysOf_dictInsert hm with hx | hx
      · exact h0 hx
      · exact hk0 hx

theorem wfRecB_intro {r : Record} (h1 : nodupKeysB r = true)
    (h2 : ∀ kv ∈ r, wfKeyB kv.1 = true ∧ wfValB kv.2 = true) : wfRecB r = true := by
  unfold wfRecB
  rw [Bool.and_eq_true, List.all_eq_true]
  refine ⟨h1, fun kv hm => ?_⟩
  rw [Bool.and_eq_true]
  exact h2 kv hm

theorem wfRecB_dictInsert {k : Str} {v : Value} {r : Record} (h : wfRecB r = true)
    (hk : wfKeyB k = true) (hv : wfValB v = true) : wfRecB (dictInsert k v r) = true := by
  obtain ⟨hnd, hwf⟩ := wfRecB_parts h
  refine wfRecB_intro (nodupKeysB_dictInsert hnd) (fun kv hm => ?_)
  rcases mem_dictInsert hm with hx | hx
  · rw [hx]; exact ⟨hk, hv⟩
  · exact hwf kv hx

theorem wfRecB_dictMerge :
    ∀ (updates : Record) (m : Record), wfRecB m = true →
      (∀ kv ∈ updates, wfKeyB kv.1 = true ∧ wfValB kv.2 = true) →
      wfRecB (dictMerge m updates) = true
  | [], m, hm, _ => hm
  | (k, v) :: updates, m, hm, hwf => by
    show wfRecB (dictMerge (dictInsert k v m) updates) = true
    exact wfRecB_dictMerge updates (dictInsert k v m)
      (wfRecB_dictInsert hm (hwf (k, v) (List.mem_cons_self _ _)).1
        (hwf (k, v) (List.mem_cons_self _ _)).2)
      (fun kv hmm => hwf kv (List.mem_cons_of_mem _ hmm))

theorem rlookup_dictMerge_not_mem :
    ∀ (updates : Record) (m : Record) (k : Str), k ∉ keysOf updates →
      rlookup k (dictMerge m updates) = rlookup k m
  | [], _, _, _ => rfl
  | (k0, v0) :: updates, m, k, h => by
    have hne : ¬ k = k0 := by
      intro he
      exact h (by rw [he, keysOf, List.map_cons]; exact List.mem_cons_self _ _)
    show rlookup k (dictMerge (dictInsert k0 v0 m) updates) = rlookup k m
    have hrec := rlookup_dictMerge_not_mem updates (dictInsert k0 v0 m) k
      (fun hm => h (by rw [keysOf, List.map_cons]; exact List.mem_cons_of_mem _ hm))
    rw [hrec]
    exact rlookup_dictInsert_ne v0 hne m

theorem rlookup_dictMerge_mem :
    ∀ (updates : Record) (m : Record) (k : Str) (v : Value),
      nodupKeysB updates = true → (k, v) ∈ updates →
      rlookup k (dictMerge m updates) = some v
  | [], _, _, _, _, hm => by simp at hm
  | (k0, v0) :: updates, m, k, v, hnd, hm => by
    obtain ⟨hk0, hnd'⟩ := nodupKeysB_cons hnd
    show rlookup k (dictMerge (dictInsert k0 v0 m) updates) = some v
    rcases List.mem_cons.1 hm with he | hmm
    · injection he with h1 h2
      subst h1
      subst h2
      have hrec := rlookup_dictMerge_not_mem updates (dictInsert k v m) k hk0
      rw [hrec]
      exact rlookup_dictInsert_self k v m
    · exact rlookup_dictMerge_mem updates (dictInsert k0 v0 m) k v hnd' hmm

/-! ## Lemmas: cleanup postconditions -/

theorem not_mem_branchNames_removeBranch (w : World) (b : Str) :
    b ∉ branchNames (removeBranch w b).branches := by
  intro h
  unfold removeBranch branchNames at h
  obtain ⟨p, hp, hpe⟩ := List.mem_map.1 h
  have hf := (List.mem_filter.1 hp).2
  simp only [decide_eq_true_eq] at hf
  exact hf hpe

theorem not_mem_dirs_removeDir (w : World) (p : Str) : p ∉ (removeDir w p).dirs := by
  intro h
  unfold removeDir at h
  have hf := (List.mem_filter.1 h).2
  simp only [decide_eq_true_eq] at hf
  exact hf rfl

theorem cleanup_post (w : World) (tid : Str) :
    branchName tid ∉ branchNames (cleanupFailedWorkspace w tid).branches ∧
    dirPath w.base tid ∉ (cleanupFailedWorkspace w tid).dirs ∧
    (cleanupFailedWorkspace w tid).base = w.base := by
  unfold cleanupFailedWorkspace
  by_cases h : dirPath w.base tid ∈ w.dirs
  · simp only [if_pos h]
    exact ⟨not_mem_branchNames_removeBranch _ _, not_mem_dirs_removeDir w _, rfl⟩
  · simp only [if_neg h]
    exact ⟨not_mem_branchNames_removeBranch _ _, h, rfl⟩

theorem cleanup_base (w : World) (tid : Str) :
    (cleanupFailedWorkspace w tid).base = w.base := (cleanup_post w tid).2.2

theorem cleanup_branch_not (w : World) (tid : Str) :
    branchName tid ∉ branchNames (cleanupFailedWorkspace w tid).branches :=
  (cleanup_post w tid).1

theorem cleanup_dir_not (w : World) (tid : Str) :
    dirPath w.base tid ∉ (cleanupFailedWorkspace w tid).dirs := (cleanup_post w tid).2.1

/-! ## Lemmas: small store operations -/

theorem getFile_setFile_self (fs : List (Str × Str)) (p c : Str) :
    getFile (setFile fs p c) p = some c := by
  induction fs with
  | nil => simp [setFile, getFile]
  | cons qd fs ih =>
    obtain ⟨q, d⟩ := qd
    by_cases h : q = p
    · simp [setFile, h, getFile]
    · simp [setFile, h, getFile, ih]

theorem setTip_cons_ne {b q : Str} (m n : Option Str) (rest : List (Str × Option Str))
    (h : ¬ b = q) : setTip ((b, m) :: rest) q n = (b, m) :: setTip rest q n := by
  simp [setTip, h]

theorem setTip_cons_eq (b : Str) (m n : Option Str) (rest : List (Str × Option Str)) :
    setTip ((b, m) :: rest) b n = (b, n) :: rest := by
  simp [setTip]

theorem main_ne_branchName (tid : Str) : ¬ mainChars = branchName tid := by
  intro h
  unfold mainChars branchName at h
  injection h with h1 _
  exact absurd h1 (by decide)

theorem branchName_ne_main (tid : Str) : ¬ branchName tid = mainChars := by
  intro h
  exact main_ne_branchName tid h.symm

/-! ## Canonical initial world for the create scenarios -/

/-- A fresh repository: only the main branch, no worktrees, no files. -/
def initWorld (base hc : Str) : World :=
  { base := base, branches := [(mainChars, none)], dirs := [], dirty := [],
    files := [], headCommit := hc, envTemplate := none }

/-- An environment in which every gateway call succeeds and the two clock
readings taken during `create` are `t1` and `t2`. -/
def okCreateEnv (t1 t2 : Str) : Env :=
  { oracle := [true, true, true, true, true, true], clock := [t1, t2] }

set_option maxHeartbeats 1000000 in
theorem create_initWorld (base hc t1 t2 tid title agent : Str) (skill : Option Str) :
    create (initWorld base hc) (okCreateEnv t1 t2) tid title agent skill =
      (.ok (dirPath base tid),
       { base := base,
         branches := [(mainChars, none),
           (branchName tid, some (writeYamlFallback (metaRecord tid title agent skill hc t1 t2)))],
         dirs := [dirPath base tid], dirty := [],
         files := [(metaPath base tid, writeYamlFallback (metaRecord tid title agent skill hc t1 t2))],
         headCommit := hc, envTemplate := none },
       { oracle := [], clock := [] }) := by
  unfold create createEnvCopy createFinish initWorld okCreateEnv checkoutFiles
  simp only [popOracle, popClock, List.headD, List.tail, branchNames, List.map_cons, List.map_nil,
    List.mem_singleton, List.mem_cons, List.not_mem_nil, or_false, eq_self_iff_true,
    branchName_ne_main, main_ne_branchName, tipMeta, setTip, setFile, getFile,
    if_true, if_false, and_true, true_and, not_false_iff]
  simp [branchName_ne_main, main_ne_branchName]

theorem wfRecB_metaRecord (tid title agent hc t1 t2 : Str) (skill : Option Str)
    (htid : wfValB (.vstr tid) = true) (htitle : wfValB (.vstr title) = true)
    (hagent : wfValB (.vstr agent) = true) (hhc : wfValB (.vstr hc) = true)
    (ht1 : wfValB (.vstr t1) = true) (ht2 : wfValB (.vstr t2) = true)
    (hskill : wfValB (skillVal skill) = true) :
    wfRecB (metaRecord tid title agent skill hc t1 t2) = true := by
  rw [wfRecB, Bool.and_eq_true]
  constructor
  · rfl
  · rw [List.all_eq_true]
    intro kv hkv
    rw [Bool.and_eq_true]
    simp only [metaRecord, List.mem_cons, List.not_mem_nil, or_false] at hkv
    rcases hkv with rfl | rfl | rfl | rfl | rfl | rfl | rfl | rfl | rfl
    · exact ⟨show wfKeyB taskIdKey = true by decide, htid⟩
    · exact ⟨show wfKeyB titleKey = true by decide, htitle⟩
    · exact ⟨show wfKeyB agentKey = true by decide, hagent⟩
    · exact ⟨show wfKeyB statusKey = true by decide, show wfValB (.vstr backlogChars) = true by decide⟩
    · exact ⟨show wfKeyB skillKey = true by decide, hskill⟩
    · exact ⟨show wfKeyB xpKey = true by decide, show wfValB (.vint 0) = true by decide⟩
    · exact ⟨show wfKeyB parentKey = true by decide, hhc⟩
    · exact ⟨show wfKeyB createdKey = true by decide, ht1⟩
    · exact ⟨show wfKeyB updatedKey = true by decide, ht2⟩

/-! ## Claim C1 -/

/-- C1 counterexample: the claim fails as stated. The reduced fallback codec
does not round-trip the valid record whose `title` field is the string
`"7"`: quoting does not protect it, and decode returns the integer `7`. -/
theorem c1_counterexample :
    parseYamlFallback (writeYamlFallback [(titleKey, Value.vstr ['7'])]) =
      [(titleKey, Value.vint 7)] ∧
    parseYamlFallback (writeYamlFallback [(titleKey, Value.vstr ['7'])]) ≠
      [(titleKey, Value.vstr ['7'])] := by decide

/-- C1 (amended): for the reduced fallback codec, `decode(encode(r)) = r`
holds for every record with distinct ASCII keys free of whitespace and
colons, whose integer fields are nonnegative and whose string fields are
ASCII, line-break-free, not `"null"`, not all-digit, and do not begin or
end with a double quote; field order is irrelevant (the theorem quantifies
over records in any order). -/
theorem c1_fallback_roundtrip (r : Record) (h : wfRecB r = true) :
    parseYamlFallback (writeYamlFallback r) = r :=
  roundtrip_wf r h

/-- C1 witness: the round-trip theorem applied to a concrete record with a
string, an integer and a null field. -/
theorem c1_fallback_roundtrip_witness :
    wfRecB [(statusKey, Value.vstr backlogChars), (xpKey, Value.vint 0),
      (skillKey, Value.vnull)] = true ∧
    parseYamlFallback (writeYamlFallback [(statusKey, Value.vstr backlogChars),
      (xpKey, Value.vint 0), (skillKey, Value.vnull)]) =
      [(statusKey, Value.vstr backlogChars), (xpKey, Value.vint 0), (skillKey, Value.vnull)] :=
  ⟨by decide, c1_fallback_roundtrip _ (by decide)⟩

/-! ## Claim C2 -/

/-- C2 (amended): whenever a version-control command (`CalledProcessError`)
fails during steps 3–7 of `create`, the exception handler runs the
best-effort cleanup (whose own failures the source suppresses) and re-raises
`WorkspaceCreationError` wrapping the root cause; afterwards neither the
branch nor the directory remains, and no raw `CalledProcessError` ever
escapes `create`. (A failure of the `.env` copy, an `OSError`, escapes
uncaught and without cleanup — see the counterexample.) -/
theorem c2_create_rollback (w : World) (e : Env) (tid title agent : Str) (skill : Option Str)
    (r : Res Str) (w' : World) (e' : Env)
    (hcr : create w e tid title agent skill = (r, w', e')) :
    w'.base = w.base ∧
    (∀ c, r = .err (.workspaceCreation c) →
      c = .calledProcess ∧
      branchName tid ∉ branchNames w'.branches ∧
      dirPath w.base tid ∉ w'.dirs) ∧
    r ≠ .err .calledProcess := by
  unfold create createEnvCopy createFinish at hcr
  simp only [] at hcr
  repeat' (first | (split at hcr) | (simp only [] at hcr))
  all_goals cases hcr
  all_goals simp [cleanup_base, cleanup_branch_not, cleanup_dir_not]

def c2World : World :=
  { base := ['w'], branches := [(mainChars, none)], dirs := [], dirty := [],
    files := [], headCommit := ['h'], envTemplate := some [] }

/-- Failure schedule: probe, branch creation and worktree add succeed, the
`.env` copy fails. -/
def c2EnvA : Env := { oracle := [true, true, true, false], clock := [] }

/-- Failure schedule: probe and branch creation succeed, worktree add fails. -/
def c2EnvB : Env := { oracle := [true, true, false], clock := [] }

/-- C2 counterexample: the claim fails as stated. A failure of step 5 (the
`.env` copy, which raises `OSError`, not `CalledProcessError`) escapes
`create` uncaught: no `WorkspaceCreationError` is raised and both the
branch and the directory remain. -/
theorem c2_counterexample :
    (create c2World c2EnvA ['t'] ['T'] ['a'] none).1 = .err .ioError ∧
    branchName ['t'] ∈ branchNames (create c2World c2EnvA ['t'] ['T'] ['a'] none).2.1.branches ∧
    dirPath ['w'] ['t'] ∈ (create c2World c2EnvA ['t'] ['T'] ['a'] none).2.1.dirs := by decide

/-- C2 witness: the rollback theorem applied to the spec's concrete
scenario — branch creation succeeds, worktree materialization fails. -/
theorem c2_create_rollback_witness :
    branchName ['t'] ∉ branchNames (create c2World c2EnvB ['t'] ['T'] ['a'] none).2.1.branches ∧
    dirPath c2World.base ['t'] ∉ (create c2World c2EnvB ['t'] ['T'] ['a'] none).2.1.dirs := by
  have h := c2_create_rollback c2World c2EnvB ['t'] ['T'] ['a'] none
    (create c2World c2EnvB ['t'] ['T'] ['a'] none).1
    (create c2World c2EnvB ['t'] ['T'] ['a'] none).2.1
    (create c2World c2EnvB ['t'] ['T'] ['a'] none).2.2 rfl
  have h2 := h.2.1 Err.calledProcess (by decide)
  exact ⟨h2.2.1, h2.2.2⟩

/-! ## Claim C3 -/

/-- C3 (amended): for every valid `task_id`/`title`/`agent` triple (ASCII,
line-break-free, not `"null"`, not all-digit, no boundary quotes), in a
fresh repository with no injected gateway failures, `create` succeeds and
an immediate `get_meta` returns the created record, whose `status` is
`"backlog"` and `xp_reward` is `0`; `created_at` and `updated_at` are the
two successive clock readings taken during `create`, so they are equal
whenever those readings coincide (the code does not itself force them to
coincide — see the counterexample). -/
theorem c3_create_then_get (base hc t tid title agent : Str) (skill : Option Str)
    (htid : wfValB (.vstr tid) = true) (htitle : wfValB (.vstr title) = true)
    (hagent : wfValB (.vstr agent) = true) (hhc : wfValB (.vstr hc) = true)
    (ht : wfValB (.vstr t) = true) (hskill : wfValB (skillVal skill) = true) :
    (create (initWorld base hc) (okCreateEnv t t) tid title agent skill).1 =
      .ok (dirPath base tid) ∧
    (get_meta (create (initWorld base hc) (okCreateEnv t t) tid title agent skill).2.1
      (create (initWorld base hc) (okCreateEnv t t) tid title agent skill).2.2 tid).1 =
      .ok (metaRecord tid title agent skill hc t t) ∧
    rlookup statusKey (metaRecord tid title agent skill hc t t) = some (.vstr backlogChars) ∧
    rlookup xpKey (metaRecord tid title agent skill hc t t) = some (.vint 0) ∧
    rlookup createdKey (metaRecord tid title agent skill hc t t) =
      rlookup updatedKey (metaRecord tid title agent skill hc t t) := by
  rw [create_initWorld]
  refine ⟨rfl, ?_, rfl, rfl, rfl⟩
  unfold get_meta
  simp only [getFile, eq_self_iff_true, if_true]
  rw [roundtrip_wf _ (wfRecB_metaRecord tid title agent hc t t skill
    htid htitle hagent hhc ht ht hskill)]

/-- C3 witness: the theorem applied to a concrete triple with a concrete
clock. -/
theorem c3_create_then_get_witness :
    (create (initWorld ['w'] ['h']) (okCreateEnv ['t', '1'] ['t', '1']) ['x'] ['T'] ['a'] none).1 =
      .ok (dirPath ['w'] ['x']) ∧
    rlookup statusKey (metaRecord ['x'] ['T'] ['a'] none ['h'] ['t', '1'] ['t', '1']) =
      some (.vstr backlogChars) := by
  have h := c3_create_then_get ['w'] ['h'] ['t', '1'] ['x'] ['T'] ['a'] none
    (by decide) (by decide) (by decide) (by decide) (by decide) (by decide)
  exact ⟨h.1, h.2.2.1⟩

/-- Extract the record from a `get_meta` result (empty on failure). -/
def resRecord : Res Record → Record
  | .ok m => m
  | .err _ => []

/-- An environment whose two clock readings differ. -/
def c3CexEnv : Env :=
  { oracle := [true, true, true, true, true, true], clock := [['t', '1'], ['t', '2']] }

def emptyEnv : Env := { oracle := [], clock := [] }

/-- C3 counterexample: the claim fails as stated. `create` reads the clock
twice (`created_at` then `updated_at`); when the clock advances between
the two readings the stored values differ, so `created_at = updated_at`
does not hold of the record returned by `get_meta`. -/
theorem c3_counterexample :
    (create (initWorld ['w'] ['h']) c3CexEnv ['x'] ['T'] ['a'] none).1 =
      .ok (dirPath ['w'] ['x']) ∧
    rlookup createdKey (resRecord
      (get_meta (create (initWorld ['w'] ['h']) c3CexEnv ['x'] ['T'] ['a'] none).2.1
        emptyEnv ['x']).1) = some (.vstr ['t', '1']) ∧
    rlookup updatedKey (resRecord
      (get_meta (create (initWorld ['w'] ['h']) c3CexEnv ['x'] ['T'] ['a'] none).2.1
        emptyEnv ['x']).1) = some (.vstr ['t', '2']) ∧
    some (Value.vstr ['t', '1']) ≠ some (Value.vstr ['t', '2']) := by decide

/-! ## Claim C4 -/

theorem create_exists_of_mem (w : World) (e : Env) (tid title agent : Str) (skill : Option Str)
    (h : dirPath w.base tid ∈ w.dirs) :
    create w e tid title agent skill = (.err .workspaceExists, w, e) := by
  unfold create
  rw [if_pos h]

/-- C4: when the target directory already exists, `create` raises
`WorkspaceExistsError` before any version-control operation (the world and
the whole failure/clock environment are returned untouched, so no gateway
call was consumed); and the directory check is the sole existence guard —
when the directory is absent, `create` never raises `WorkspaceExistsError`,
whatever else happens. -/
theorem c4_exists_guard :
    (∀ (w : World) (e : Env) (tid title agent : Str) (skill : Option Str),
      dirPath w.base tid ∈ w.dirs →
      create w e tid title agent skill = (.err .workspaceExists, w, e)) ∧
    (∀ (w : World) (e : Env) (tid title agent : Str) (skill : Option Str)
        (r : Res Str) (w' : World) (e' : Env),
      dirPath w.base tid ∉ w.dirs →
      create w e tid title agent skill = (r, w', e') →
      r ≠ .err .workspaceExists) := by
  constructor
  · exact create_exists_of_mem
  · intro w e tid title agent skill r w' e' hnm hcr
    unfold create createEnvCopy createFinish at hcr
    simp only [] at hcr
    repeat' (first | (split at hcr) | (simp only [] at hcr))
    all_goals cases hcr
    all_goals simp_all

def c4World : World :=
  { base := ['w'], branches := [(mainChars, none)], dirs := [dirPath ['w'] ['t']], dirty := [],
    files := [], headCommit := ['h'], envTemplate := none }

/-- C4 witness: both guards at concrete inputs — an existing directory
yields `WorkspaceExistsError` with everything untouched, and a fresh
directory never yields `WorkspaceExistsError`. -/
theorem c4_exists_guard_witness :
    create c4World emptyEnv ['t'] ['T'] ['a'] none = (.err .workspaceExists, c4World, emptyEnv) ∧
    (create (initWorld ['w'] ['h']) emptyEnv ['t'] ['T'] ['a'] none).1 ≠ .err .workspaceExists := by
  constructor
  · exact c4_exists_guard.1 c4World emptyEnv ['t'] ['T'] ['a'] none (by decide)
  · exact c4_exists_guard.2 (initWorld ['w'] ['h']) emptyEnv ['t'] ['T'] ['a'] none
      _ _ _ (by decide) rfl

/-! ## Claim C5 -/

/-- A world holding one workspace for `tid` whose metadata file is the
encoding of `r0`. -/
def c5World (base tid : Str) (r0 : Record) : World :=
  { base := base, branches := [(branchName tid, some [])], dirs := [dirPath base tid],
    dirty := [], files := [(metaPath base tid, writeYamlFallback r0)],
    headCommit := [], envTemplate := none }

/-- Both gateway calls of the commit succeed; the clock reads `t`. -/
def c5Env (t : Str) : Env := { oracle := [true, true], clock := [t] }

set_option maxHeartbeats 1000000 in
theorem update_meta_c5World (base tid t : Str) (r0 updates : Record)
    (hwr : wfRecB r0 = true) :
    update_meta (c5World base tid r0) (c5Env t) tid updates true =
      (.ok (),
       { base := base,
         branches := [(branchName tid,
           some (writeYamlFallback (dictInsert updatedKey (.vstr t) (dictMerge r0 updates))))],
         dirs := [dirPath base tid], dirty := [],
         files := [(metaPath base tid,
           writeYamlFallback (dictInsert updatedKey (.vstr t) (dictMerge r0 updates)))],
         headCommit := [], envTemplate := none },
       { oracle := [], clock := [] }) := by
  unfold update_meta c5World c5Env
  simp only [getFile, eq_self_iff_true, if_true, popClock, popOracle, List.headD, List.tail,
    setFile, setTip]
  rw [roundtrip_wf r0 hwr]
  simp [getFile]

/-- C5 (amended): for every stored well-formed record and every update
mapping whose keys are well-formed and distinct and whose values survive
the fallback codec (ASCII, line-break-free strings that are not `"null"`,
not all-digit, without boundary quotes; nonnegative integers; null),
`update_meta` rewrites the file to the merge of the old record with the
updates plus `updated_at`, and an immediate `get_meta` shows that exactly
the named fields plus `updated_at` changed: every other field keeps its
pre-update value, each named field holds its new value, and `updated_at`
is set to the clock reading taken during the update (it strictly increases
exactly when that reading exceeds the stored value — the code itself does
not force strictness). Update values outside this domain can clobber
unrelated fields — see the counterexample. -/
theorem c5_update_meta_frame (base tid t : Str) (r0 updates : Record)
    (hwr : wfRecB r0 = true)
    (hup : ∀ kv ∈ updates, wfKeyB kv.1 = true ∧ wfValB kv.2 = true)
    (hnd : nodupKeysB updates = true)
    (ht : wfValB (.vstr t) = true) :
    (update_meta (c5World base tid r0) (c5Env t) tid updates true).1 = .ok () ∧
    (get_meta (update_meta (c5World base tid r0) (c5Env t) tid updates true).2.1
      (update_meta (c5World base tid r0) (c5Env t) tid updates true).2.2 tid).1 =
      .ok (dictInsert updatedKey (.vstr t) (dictMerge r0 updates)) ∧
    (∀ k, k ∉ keysOf updates → ¬ k = updatedKey →
      rlookup k (dictInsert updatedKey (.vstr t) (dictMerge r0 updates)) = rlookup k r0) ∧
    (∀ k v, (k, v) ∈ updates → ¬ k = updatedKey →
      rlookup k (dictInsert updatedKey (.vstr t) (dictMerge r0 updates)) = some v) ∧
    rlookup updatedKey (dictInsert updatedKey (.vstr t) (dictMerge r0 updates)) =
      some (.vstr t) := by
  have hwmerged : wfRecB (dictInsert updatedKey (.vstr t) (dictMerge r0 updates)) = true :=
    wfRecB_dictInsert (wfRecB_dictMerge updates r0 hwr hup) (by decide) ht
  rw [update_meta_c5World base tid t r0 updates hwr]
  refine ⟨rfl, ?_, ?_, ?_, rlookup_dictInsert_self _ _ _⟩
  · unfold get_meta
    simp only [getFile, eq_self_iff_true, if_true]
    rw [roundtrip_wf _ hwmerged]
  · intro k hk hku
    rw [rlookup_dictInsert_ne _ hku, rlookup_dictMerge_not_mem updates r0 k hk]
  · intro k v hkv hku
    rw [rlookup_dictInsert_ne _ hku, rlookup_dictMerge_mem updates r0 k v hnd hkv]

/-- C5 witness: a concrete status update changes `status` and `updated_at`
and leaves `xp_reward` at its pre-update value. -/
theorem c5_update_meta_frame_witness :
    (update_meta (c5World ['w'] ['x'] [(statusKey, Value.vstr backlogChars),
      (xpKey, Value.vint 0)]) (c5Env ['t', '9']) ['x']
      [(statusKey, Value.vstr ['d', 'o', 'n', 'e'])] true).1 = .ok () ∧
    rlookup xpKey (dictInsert updatedKey (.vstr ['t', '9'])
      (dictMerge [(statusKey, Value.vstr backlogChars), (xpKey, Value.vint 0)]
        [(statusKey, Value.vstr ['d', 'o', 'n', 'e'])])) =
      rlookup xpKey [(statusKey, Value.vstr backlogChars), (xpKey, Value.vint 0)] := by
  have h := c5_update_meta_frame ['w'] ['x'] ['t', '9']
    [(statusKey, Value.vstr backlogChars), (xpKey, Value.vint 0)]
    [(statusKey, Value.vstr ['d', 'o', 'n', 'e'])]
    (by decide)
    (by intro kv hkv; simp only [List.mem_cons, List.not_mem_nil, or_false] at hkv;
        rw [hkv]; exact ⟨by decide, by decide⟩)
    (by decide) (by decide)
  exact ⟨h.1, h.2.2.1 xpKey (by decide) (by decide)⟩

/-- C5 counterexample: the claim fails as stated. An update value
containing a newline injects a second line into the metadata file; after
`update_meta` with updates naming only `note`, the unrelated `status`
field reads back as `"hacked"` instead of its pre-update value
`"backlog"`. -/
theorem c5_counterexample :
    (update_meta (c5World ['w'] ['x'] [(statusKey, Value.vstr backlogChars)])
      (c5Env ['t', '2']) ['x']
      [(['n', 'o', 't', 'e'], Value.vstr ['y', '\n', 's', 't', 'a', 't', 'u', 's', ':', ' ',
        '"', 'h', 'a', 'c', 'k', 'e', 'd', '"'])] true).1 = .ok () ∧
    rlookup statusKey (resRecord
      (get_meta (update_meta (c5World ['w'] ['x'] [(statusKey, Value.vstr backlogChars)])
        (c5Env ['t', '2']) ['x']
        [(['n', 'o', 't', 'e'], Value.vstr ['y', '\n', 's', 't', 'a', 't', 'u', 's', ':', ' ',
          '"', 'h', 'a', 'c', 'k', 'e', 'd', '"'])] true).2.1 emptyEnv ['x']).1) =
      some (Value.vstr ['h', 'a', 'c', 'k', 'e', 'd']) ∧
    some (Value.vstr ['h', 'a', 'c', 'k', 'e', 'd']) ≠ some (Value.vstr backlogChars) := by
  decide

/-! ## Claim C6 -/

/-- C6 (amended): for a `task_id` with no metadata file, `get_meta` raises
`WorkspaceNotFoundError`, but `update_meta` has no existence check: its
`_read_yaml` call surfaces the underlying `FileNotFoundError` (an
`OSError`, not a `WorkspaceError`). Neither operation retries or consumes
a gateway call; the world is returned untouched. -/
theorem c6_missing_metadata (w : World) (e : Env) (tid : Str) (updates : Record)
    (commit : Bool) (h : getFile w.files (metaPath w.base tid) = none) :
    get_meta w e tid = (.err .workspaceNotFound, w, e) ∧
    update_meta w e tid updates commit = (.err .fileNotFound, w, e) := by
  constructor
  · unfold get_meta
    rw [h]
  · unfold update_meta
    rw [h]

/-- C6 witness: both operations on a fresh repository with no workspace. -/
theorem c6_missing_metadata_witness :
    get_meta (initWorld ['w'] ['h']) emptyEnv ['z'] =
      (.err .workspaceNotFound, initWorld ['w'] ['h'], emptyEnv) ∧
    update_meta (initWorld ['w'] ['h']) emptyEnv ['z'] [] true =
      (.err .fileNotFound, initWorld ['w'] ['h'], emptyEnv) :=
  c6_missing_metadata (initWorld ['w'] ['h']) emptyEnv ['z'] [] true (by decide)

/-- C6 counterexample: the claim fails as stated for `update_meta` — the
error raised for an absent metadata file is the builtin file-read error,
not `WorkspaceNotFoundError`. -/
theorem c6_counterexample :
    (update_meta (initWorld ['w'] ['h']) emptyEnv ['z'] [] true).1 = .err .fileNotFound ∧
    (update_meta (initWorld ['w'] ['h']) emptyEnv ['z'] [] true).1 ≠
      .err .workspaceNotFound := by decide

/-! ## Claim C7 -/

/-- C7: `remove` is not idempotent. When neither the working tree nor
anything else of the workspace exists, the worktree-removal command fails
and `remove` raises `WorkspaceRemovalError` wrapping it, leaving the world
unchanged — it never succeeds silently. When the workspace exists, the
working tree is removed first and then the branch; if the branch deletion
fails after the tree removal succeeded, the tree is already gone while the
branch remains, witnessing the order. -/
theorem c7_remove_not_idempotent :
    (∀ (w : World) (e : Env) (tid : Str) (force : Bool),
      dirPath w.base tid ∉ w.dirs →
      remove w e tid force = (.err (.workspaceRemoval .calledProcess), w, (popOracle e).2)) ∧
    (∀ (w : World) (rest : List Bool) (cl : List Str) (tid : Str) (force : Bool),
      dirPath w.base tid ∈ w.dirs → dirPath w.base tid ∉ w.dirty →
      branchName tid ∈ branchNames w.branches →
      (remove w ⟨true :: true :: rest, cl⟩ tid force).1 = .ok () ∧
      dirPath w.base tid ∉ (remove w ⟨true :: true :: rest, cl⟩ tid force).2.1.dirs ∧
      branchName tid ∉
        branchNames (remove w ⟨true :: true :: rest, cl⟩ tid force).2.1.branches) ∧
    (∀ (w : World) (rest : List Bool) (cl : List Str) (tid : Str) (force : Bool),
      dirPath w.base tid ∈ w.dirs → dirPath w.base tid ∉ w.dirty →
      branchName tid ∈ branchNames w.branches →
      (remove w ⟨true :: false :: rest, cl⟩ tid force).1 =
        .err (.workspaceRemoval .calledProcess) ∧
      dirPath w.base tid ∉ (remove w ⟨true :: false :: rest, cl⟩ tid force).2.1.dirs ∧
      branchName tid ∈
        branchNames (remove w ⟨true :: false :: rest, cl⟩ tid force).2.1.branches) := by
  refine ⟨?_, ?_, ?_⟩
  · intro w e tid force hnm
    unfold remove
    simp only [popOracle]
    rw [if_neg (fun hcond => hnm hcond.2.1)]
  · intro w rest cl tid force hd hdirty hb
    unfold remove popOracle
    simp only [List.headD, List.tail]
    rw [if_pos ⟨by trivial, hd, Or.inr hdirty⟩]
    rw [if_pos ⟨by trivial, hb⟩]
    exact ⟨rfl, not_mem_dirs_removeDir w _, not_mem_branchNames_removeBranch _ _⟩
  · intro w rest cl tid force hd hdirty hb
    unfold remove popOracle
    simp only [List.headD, List.tail]
    rw [if_pos ⟨by trivial, hd, Or.inr hdirty⟩]
    rw [if_neg (fun hcond => by simpa using hcond.1)]
    exact ⟨rfl, not_mem_dirs_removeDir w _, hb⟩

def c7World : World :=
  { base := ['w'], branches := [(branchName ['x'], some [])], dirs := [dirPath ['w'] ['x']],
    dirty := [], files := [], headCommit := [], envTemplate := none }

/-- C7 witness: removing an absent workspace fails; removing an existing
one succeeds; a branch-deletion failure after tree removal surfaces. -/
theorem c7_remove_not_idempotent_witness :
    (remove (initWorld ['w'] ['h']) emptyEnv ['z'] false).1 =
      .err (.workspaceRemoval .calledProcess) ∧
    (remove c7World ⟨[true, true], []⟩ ['x'] false).1 = .ok () ∧
    (remove c7World ⟨[true, false], []⟩ ['x'] false).1 =
      .err (.workspaceRemoval .calledProcess) := by
  refine ⟨?_, ?_, ?_⟩
  · rw [c7_remove_not_idempotent.1 (initWorld ['w'] ['h']) emptyEnv ['z'] false (by decide)]
  · exact (c7_remove_not_idempotent.2.1 c7World [] [] ['x'] false
      (by decide) (by decide) (by decide)).1
  · exact (c7_remove_not_idempotent.2.2 c7World [] [] ['x'] false
      (by decide) (by decide) (by decide)).1

/-! ## Claim C8 -/

theorem allTrue_tail {l : List Bool} (h : allTrue l) : allTrue l.tail :=
  fun b hb => h b (List.mem_of_mem_tail hb)

theorem allTrue_headD {l : List Bool} (h : allTrue l) : l.headD true = true := by
  cases l with
  | nil => rfl
  | cons b l => exact h b (List.mem_cons_self b l)

theorem listGo_spec : ∀ (bs : List (Str × Option Str)) (e : Env), allTrue e.oracle →
    (listGo bs e).1 = listSpec bs
  | [], _, _ => rfl
  | (b, m) :: rest, e, h => by
    have htl : allTrue ({ e with oracle := e.oracle.tail } : Env).oracle := allTrue_tail h
    unfold listGo listSpec
    by_cases hp : hasPref featPref b = true
    · rw [if_pos hp, if_pos hp]
      simp only [popOracle, allTrue_headD h]
      cases m with
      | some content =>
        simp only []
        rw [listGo_spec rest _ htl]
      | none =>
        simp only []
        exact listGo_spec rest _ htl
    · rw [if_neg hp, if_neg hp]
      exact listGo_spec rest e h

/-- C8: with no injected gateway failure, `list_workspaces` returns exactly
one record per branch carrying the fixed `feat/` prefix whose tip holds the
metadata file, decoded from the tip content (no working tree is consulted —
the theorem holds for every world, whatever its `dirs`); branches without
the file are silently omitted; each record carries its source branch name
under the `branch` key; and the world is returned unchanged (no state is
mutated). -/
theorem c8_list_workspaces (w : World) (e : Env) (h : allTrue e.oracle) :
    (list_workspaces w e).1 = .ok (listSpec w.branches) ∧
    (list_workspaces w e).2.1 = w := by
  have hs := listGo_spec w.branches ({ e with oracle := e.oracle.tail } : Env) (allTrue_tail h)
  unfold list_workspaces
  simp only [popOracle, allTrue_headD h]
  rw [if_pos trivial]
  constructor
  · rw [hs]
  · rfl

def c8World : World :=
  { base := ['w'],
    branches := [(mainChars, none),
      (branchName ['x'], some (writeYamlFallback [(statusKey, Value.vstr backlogChars)])),
      (branchName ['y'], none)],
    dirs := [], dirty := [], files := [], headCommit := [], envTemplate := none }

def c8Env : Env := { oracle := [true, true, true], clock := [] }

/-- C8 witness: a world with a non-`feat/` branch, a `feat/` branch with
metadata at its tip, and a `feat/` branch without it. -/
theorem c8_list_workspaces_witness :
    (list_workspaces c8World c8Env).1 = .ok (listSpec c8World.branches) ∧
    (list_workspaces c8World c8Env).2.1 = c8World :=
  c8_list_workspaces c8World c8Env (by unfold allTrue; decide)

/-! ## Claim C9 -/

/-- C9 (amended): gateway failures are not uniformly propagated. A failure
of the branch enumeration inside `list_workspaces` is swallowed
(`except CalledProcessError: pass`) and yields an empty success result —
an error silently downgraded to a success; by contrast the other
operations do propagate: a failing commit inside `update_meta` surfaces as
the typed gateway error (`CalledProcessError`), with no retry, and
create's rollback remains the one place that deliberately suppresses
cleanup failures. -/
theorem c9_propagation :
    (∀ (w : World) (rest : List Bool) (cl : List Str),
      list_workspaces w ⟨false :: rest, cl⟩ = (.ok [], w, ⟨rest, cl⟩)) ∧
    (∀ (base tid t : Str) (r0 updates : Record) (rest : List Bool),
      (update_meta (c5World base tid r0) ⟨false :: rest, [t]⟩ tid updates true).1 =
        .err .calledProcess) := by
  constructor
  · intro w rest cl
    unfold list_workspaces popOracle
    simp only [List.headD, List.tail]
    rw [if_neg (fun hcond => by simp at hcond)]
  · intro base tid t r0 updates rest
    unfold update_meta c5World
    simp only [getFile, eq_self_iff_true, if_true, popClock, popOracle, List.headD, List.tail]
    rw [if_neg (fun hcond => by simpa using hcond.1)]

def c9World : World :=
  { base := ['w'],
    branches := [(branchName ['x'],
      some (writeYamlFallback [(statusKey, Value.vstr backlogChars)]))],
    dirs := [], dirty := [], files := [], headCommit := [], envTemplate := none }

/-- C9 counterexample: the claim fails as stated. With one existing
workspace, a gateway failure during branch enumeration makes
`list_workspaces` return a successful empty result instead of surfacing a
typed error. -/
theorem c9_counterexample :
    (list_workspaces c9World ⟨[false], []⟩).1 = .ok [] ∧
    listSpec c9World.branches ≠ [] := by decide

/-! ## Claim C10 -/

theorem create_ok_post (w : World) (e : Env) (tid title agent : Str) (skill : Option Str)
    (p : Str) (w' : World) (e' : Env)
    (hcr : create w e tid title agent skill = (.ok p, w', e')) :
    dirPath w.base tid ∈ w'.dirs ∧ w'.base = w.base := by
  unfold create createEnvCopy createFinish at hcr
  simp only [] at hcr
  repeat' (first | (split at hcr) | (simp only [] at hcr))
  all_goals cases hcr
  all_goals simp

/-- C10: the task-id to directory mapping (append the fixed prefix, then
replace every slash with a dash) is not injective: the distinct ids
`a/b` and `a-b` share one directory although their branch names differ, so
after a successful `create` for `a/b`, a `create` for `a-b` raises
`WorkspaceExistsError` and leaves everything untouched, even though no
workspace for `a-b` exists. -/
theorem c10_path_collision :
    (∀ base : Str, dirPath base ['a', '/', 'b'] = dirPath base ['a', '-', 'b']) ∧
    branchName ['a', '/', 'b'] ≠ branchName ['a', '-', 'b'] ∧
    (∀ (w : World) (e e2 : Env) (t1 a1 t2 a2 p : Str) (w' : World) (e' : Env),
      create w e ['a', '/', 'b'] t1 a1 none = (.ok p, w', e') →
      create w' e2 ['a', '-', 'b'] t2 a2 none = (.err .workspaceExists, w', e2)) := by
  refine ⟨fun base => rfl, by decide, ?_⟩
  intro w e e2 t1 a1 t2 a2 p w' e' hcr
  obtain ⟨hmem, hbase⟩ := create_ok_post w e ['a', '/', 'b'] t1 a1 none p w' e' hcr
  apply create_exists_of_mem
  rw [hbase]
  exact hmem

/-- C10 witness: concrete successful `create` for `a/b` followed by
`create` for `a-b`, which collides. -/
theorem c10_path_collision_witness :
    create (create (initWorld ['w'] ['h']) (okCreateEnv ['t'] ['t'])
        ['a', '/', 'b'] ['T'] ['g'] none).2.1 emptyEnv ['a', '-', 'b'] ['U'] ['g'] none =
      (.err .workspaceExists,
       (create (initWorld ['w'] ['h']) (okCreateEnv ['t'] ['t'])
         ['a', '/', 'b'] ['T'] ['g'] none).2.1,
       emptyEnv) :=
  c10_path_collision.2.2 (initWorld ['w'] ['h']) (okCreateEnv ['t'] ['t']) emptyEnv
    ['T'] ['g'] ['U'] ['g'] (dirPath ['w'] ['a', '/', 'b'])
    (create (initWorld ['w'] ['h']) (okCreateEnv ['t'] ['t'])
      ['a', '/', 'b'] ['T'] ['g'] none).2.1
    (create (initWorld ['w'] ['h']) (okCreateEnv ['t'] ['t'])
      ['a', '/', 'b'] ['T'] ['g'] none).2.2
    (by decide)

end WM
